import Mathlib

/-!
Verification of the SlideGenerator rendering core (src/services.py).

The markup parser, style resolver, layout renderers, document assembler and
content cache are embedded as executable Lean definitions translated from
the Python source; the claims about them are proved below the definitions.
-/

/-! ## Markup parser (SlideBuilderService._process_markdown_to_runs)

The Python code splits the paragraph text with
re.split of the pattern (doubled star or doubled underscore)(non-greedy run)(same delimiter)
and turns the resulting parts list into text runs with a stride-3 loop.
Strings are modelled as lists of characters.  The regex engine behaviour
that matters here: the scan is leftmost-match, at a given start position
the doubled-star branch is tried before the doubled-underscore branch
(they can never both apply), the inner non-greedy run matches the shortest
possible content, and the dot of the inner run does not match a newline.
-/

def star2 : List Char := ['*', '*']

def und2 : List Char := ['_', '_']

/-- Boolean test that the first list is a prefix of the second. -/
def startsWith : List Char → List Char → Bool
  | [], _ => true
  | _ :: _, [] => false
  | p :: ps, c :: cs => p == c && startsWith ps cs

/-- Scan for the closing delimiter d, returning the (shortest) content before
it and the remainder after it; the content may not contain a newline, because
the dot of the non-greedy inner group does not match newlines. -/
def findCloser (d : List Char) : List Char → Option (List Char × List Char)
  | [] => none
  | c :: cs =>
    if startsWith d (c :: cs) then some ([], (c :: cs).drop d.length)
    else if c == '\n' then none
    else (findCloser d cs).map (fun pr => (c :: pr.1, pr.2))

/-- Try to match the delimiter pattern at the current position:
returns (delimiter, content, rest) on success. -/
def matchHere (s : List Char) : Option (List Char × List Char × List Char) :=
  if startsWith star2 s then (findCloser star2 (s.drop 2)).map (fun pr => (star2, pr.1, pr.2))
  else if startsWith und2 s then (findCloser und2 (s.drop 2)).map (fun pr => (und2, pr.1, pr.2))
  else none

/-- Leftmost match of the delimiter pattern: returns
(plain text before the match, delimiter, content, rest after the match). -/
def findMatch : List Char → Option (List Char × List Char × List Char × List Char)
  | [] => none
  | c :: cs =>
    match matchHere (c :: cs) with
    | some (d, ct, rest) => some ([], d, ct, rest)
    | none => (findMatch cs).map (fun q => (c :: q.1, q.2))

theorem startsWith_eq_append {p s : List Char} (h : startsWith p s = true) :
    s = p ++ s.drop p.length := by
  induction p generalizing s with
  | nil => simp
  | cons x ps ih =>
    cases s with
    | nil => simp [startsWith] at h
    | cons c cs =>
      simp only [startsWith, Bool.and_eq_true, beq_iff_eq] at h
      obtain ⟨hx, hrest⟩ := h
      have := ih hrest
      simp [hx, List.drop, ← this]

theorem startsWith_append_self (p u : List Char) : startsWith p (p ++ u) = true := by
  induction p with
  | nil => rfl
  | cons x ps ih => simp [startsWith, ih]

theorem findCloser_eq_append {d s ct r : List Char}
    (h : findCloser d s = some (ct, r)) : s = ct ++ d ++ r := by
  induction s generalizing ct with
  | nil => simp [findCloser] at h
  | cons c cs ih =>
    rw [findCloser] at h
    by_cases hsw : startsWith d (c :: cs) = true
    · simp only [hsw, if_true, Option.some.injEq, Prod.mk.injEq] at h
      obtain ⟨h1, h2⟩ := h
      subst h1; subst h2
      simpa using startsWith_eq_append hsw
    · simp only [hsw, if_false, Bool.false_eq_true] at h
      by_cases hnl : (c == '\n') = true
      · simp [hnl] at h
      · simp only [hnl, if_false, Bool.false_eq_true, Option.map_eq_some'] at h
        obtain ⟨⟨ct', r'⟩, hfc, heq⟩ := h
        simp only [Prod.mk.injEq] at heq
        obtain ⟨h1, h2⟩ := heq
        subst h2
        have := ih hfc
        simp [← h1, this]

theorem matchHere_eq_append {s d ct r : List Char}
    (h : matchHere s = some (d, ct, r)) :
    s = d ++ ct ++ d ++ r ∧ (d = star2 ∨ d = und2) := by
  rw [matchHere] at h
  by_cases h1 : startsWith star2 s = true
  · simp only [h1, if_true, Option.map_eq_some'] at h
    obtain ⟨⟨ct', r'⟩, hfc, heq⟩ := h
    simp only [Prod.mk.injEq] at heq
    obtain ⟨hd, hct, hr⟩ := heq
    subst hd; subst hct; subst hr
    have hs := startsWith_eq_append h1
    have hrest := findCloser_eq_append hfc
    constructor
    · calc s = star2 ++ s.drop star2.length := hs
        _ = star2 ++ (ct' ++ star2 ++ r') := by rw [show star2.length = 2 from rfl, ← hrest]
        _ = star2 ++ ct' ++ star2 ++ r' := by simp
    · exact Or.inl rfl
  · simp only [h1, if_false, Bool.false_eq_true] at h
    by_cases h2 : startsWith und2 s = true
    · simp only [h2, if_true, Option.map_eq_some'] at h
      obtain ⟨⟨ct', r'⟩, hfc, heq⟩ := h
      simp only [Prod.mk.injEq] at heq
      obtain ⟨hd, hct, hr⟩ := heq
      subst hd; subst hct; subst hr
      have hs := startsWith_eq_append h2
      have hrest := findCloser_eq_append hfc
      constructor
      · calc s = und2 ++ s.drop und2.length := hs
          _ = und2 ++ (ct' ++ und2 ++ r') := by rw [show und2.length = 2 from rfl, ← hrest]
          _ = und2 ++ ct' ++ und2 ++ r' := by simp
      · exact Or.inr rfl
    · simp [h2] at h

theorem findMatch_eq_append {s p d ct r : List Char}
    (h : findMatch s = some (p, d, ct, r)) :
    s = p ++ d ++ ct ++ d ++ r ∧ (d = star2 ∨ d = und2) := by
  induction s generalizing p with
  | nil => simp [findMatch] at h
  | cons c cs ih =>
    rw [findMatch] at h
    cases hmh : matchHere (c :: cs) with
    | some q =>
      obtain ⟨d', ct', r'⟩ := q
      simp only [hmh, Option.some.injEq, Prod.mk.injEq] at h
      obtain ⟨hp, hd, hct, hr⟩ := h
      subst hp; subst hd; subst hct; subst hr
      have := matchHere_eq_append hmh
      simpa using this
    | none =>
      simp only [hmh, Option.map_eq_some'] at h
      obtain ⟨⟨p', d', ct', r'⟩, hfm, heq⟩ := h
      simp only [Prod.mk.injEq] at heq
      obtain ⟨hp, hd, hct, hr⟩ := heq
      subst hd; subst hct; subst hr
      have := ih hfm
      constructor
      · rw [← hp]; simp [this.1]
      · exact this.2

theorem findMatch_rest_lt {s p d ct r : List Char}
    (h : findMatch s = some (p, d, ct, r)) : r.length < s.length := by
  obtain ⟨hs, hd⟩ := findMatch_eq_append h
  have hd2 : d.length = 2 := by cases hd with
    | inl h => subst h; rfl
    | inr h => subst h; rfl
  rw [hs]
  simp [hd2]
  omega

/-- Fuel-indexed splitting loop; the fuel only serves to make the recursion
structural, regexSplit below instantiates it with the string length, which
always suffices because each match consumes at least four characters. -/
def regexSplitAux : Nat → List Char → List (List Char)
  | 0, s => [s]
  | fuel + 1, s =>
    match findMatch s with
    | none => [s]
    | some (p, d, c, rest) => p :: d :: c :: regexSplitAux fuel rest

/-- Model of re.split with the delimiter pattern: the parts list consumed by
the stride-3 loop of the Python code. -/
def regexSplit (s : List Char) : List (List Char) := regexSplitAux s.length s

theorem regexSplitAux_congr : ∀ (f1 f2 : Nat) (s : List Char),
    s.length ≤ f1 → s.length ≤ f2 → regexSplitAux f1 s = regexSplitAux f2 s := by
  intro f1
  induction f1 with
  | zero =>
    intro f2 s h1 _
    have hs : s = [] := List.length_eq_zero.mp (Nat.le_zero.mp h1)
    subst hs
    cases f2 with
    | zero => rfl
    | succ f2' => simp [regexSplitAux, findMatch]
  | succ f1' ih =>
    intro f2 s h1 h2
    cases f2 with
    | zero =>
      have hs : s = [] := List.length_eq_zero.mp (Nat.le_zero.mp h2)
      subst hs
      simp [regexSplitAux, findMatch]
    | succ f2' =>
      simp only [regexSplitAux]
      cases hfm : findMatch s with
      | none => rfl
      | some q =>
        obtain ⟨p, d, c, rest⟩ := q
        have hlt := findMatch_rest_lt hfm
        have hr1 : rest.length ≤ f1' := by omega
        have hr2 : rest.length ≤ f2' := by omega
        exact congrArg (fun l => p :: d :: c :: l) (ih f2' rest hr1 hr2)

theorem regexSplit_of_none {s : List Char} (h : findMatch s = none) :
    regexSplit s = [s] := by
  unfold regexSplit
  cases hl : s.length with
  | zero => rfl
  | succ n => simp [regexSplitAux, h]

theorem regexSplit_of_some {s p d c rest : List Char}
    (h : findMatch s = some (p, d, c, rest)) :
    regexSplit s = p :: d :: c :: regexSplit rest := by
  unfold regexSplit
  cases s with
  | nil => simp [findMatch] at h
  | cons a as =>
    have hlt := findMatch_rest_lt h
    simp only [List.length_cons, regexSplitAux, h]
    rw [regexSplitAux_congr as.length rest.length rest (by simpa using Nat.lt_succ_iff.mp (by simpa using hlt)) (Nat.le_refl _)]

theorem regexSplit_ne_nil (s : List Char) : regexSplit s ≠ [] := by
  cases hfm : findMatch s with
  | none => rw [regexSplit_of_none hfm]; simp
  | some q =>
    obtain ⟨p, d, c, rest⟩ := q
    rw [regexSplit_of_some hfm]; simp

/-- A text run of a paragraph.  The font attributes mirror python-pptx run
font attributes: none means "inherit from the template". -/
structure Run where
  text : List Char
  bold : Option Bool := none
  underline : Option Bool := none
  fontName : Option String := none
  fontSize : Option Nat := none
  fontColor : Option (Nat × Nat × Nat) := none
deriving DecidableEq, Repr

/-- The stride-3 loop of _process_markdown_to_runs over parts[1:]:
each iteration consumes a delimiter part and a content part, emits a styled
run, and, when a further part exists, emits it as a plain run. -/
def tripleRuns : List (List Char) → List Run
  | d :: c :: t :: rest =>
    { text := c,
      bold := if d == star2 then some true else none,
      underline := if d == und2 then some true else none }
      :: { text := t } :: tripleRuns rest
  | [d, c] =>
    [{ text := c,
       bold := if d == star2 then some true else none,
       underline := if d == und2 then some true else none }]
  | _ => []

/-- parts[0] becomes the first (plain) run, the rest feeds the stride-3 loop. -/
def partsToRuns : List (List Char) → List Run
  | [] => []
  | p0 :: rest => { text := p0 } :: tripleRuns rest

/-- Model of SlideBuilderService._process_markdown_to_runs: the ordered list
of runs written into a paragraph for the given markdown text. -/
def processMarkdownToRuns (s : List Char) : List Run := partsToRuns (regexSplit s)

/-- Concatenation of the text fields of a list of runs, in order. -/
def joinTexts (rs : List Run) : List Char := rs.foldr (fun r acc => r.text ++ acc) []

theorem processMarkdownToRuns_of_none {s : List Char} (h : findMatch s = none) :
    processMarkdownToRuns s = [{ text := s }] := by
  unfold processMarkdownToRuns
  rw [regexSplit_of_none h]
  rfl

theorem processMarkdownToRuns_of_some {s p d c rest : List Char}
    (h : findMatch s = some (p, d, c, rest)) :
    processMarkdownToRuns s =
      { text := p }
        :: { text := c,
             bold := if d == star2 then some true else none,
             underline := if d == und2 then some true else none }
        :: processMarkdownToRuns rest := by
  unfold processMarkdownToRuns
  rw [regexSplit_of_some h]
  obtain ⟨p', rs', hrest⟩ : ∃ p' rs', regexSplit rest = p' :: rs' := by
    cases hr : regexSplit rest with
    | nil => exact absurd hr (regexSplit_ne_nil rest)
    | cons x xs => exact ⟨x, xs, rfl⟩
  rw [hrest]
  rfl

/-! ## Well-formed delimiter-balanced strings

A well-formed delimiter-balanced string is a concatenation of plain
segments (free of star and underscore characters, so they can contribute no
delimiter) and delimited spans: a doubled star or doubled underscore pair
around inner text free of star, underscore and newline characters (the
newline restriction reflects that the dot of the pattern never matches a
newline, so a pair broken across lines is not matched by the engine). -/

inductive Seg
  | plain (t : List Char)
  | emph (t : List Char)
  | undl (t : List Char)
deriving DecidableEq, Repr

def isCleanPlain (t : List Char) : Bool := t.all (fun c => !(c == '*') && !(c == '_'))

def isCleanInner (t : List Char) : Bool :=
  t.all (fun c => !(c == '*') && !(c == '_') && !(c == '\n'))

def segWF : Seg → Bool
  | .plain t => isCleanPlain t
  | .emph t => isCleanInner t
  | .undl t => isCleanInner t

def renderSeg : Seg → List Char
  | .plain t => t
  | .emph t => star2 ++ t ++ star2
  | .undl t => und2 ++ t ++ und2

/-- The concrete string denoted by a segment list. -/
def renderSegs (l : List Seg) : List Char := l.foldr (fun sg acc => renderSeg sg ++ acc) []

def stripSeg : Seg → List Char
  | .plain t => t
  | .emph t => t
  | .undl t => t

/-- The segment list's string with all delimiter pairs removed. -/
def stripSegs (l : List Seg) : List Char := l.foldr (fun sg acc => stripSeg sg ++ acc) []


theorem startsWith_false_of_head_ne {x c : Char} {xs s : List Char} (hx : ¬x = c) :
    startsWith (x :: xs) (c :: s) = false := by
  simp only [startsWith, beq_eq_false_iff_ne.mpr hx, Bool.false_and]

theorem matchHere_of_clean_head {c : Char} {cs : List Char}
    (hstar : ¬c = '*') (hund : ¬c = '_') : matchHere (c :: cs) = none := by
  have h1 : startsWith star2 (c :: cs) = false :=
    startsWith_false_of_head_ne (fun he => hstar he.symm)
  have h2 : startsWith und2 (c :: cs) = false :=
    startsWith_false_of_head_ne (fun he => hund he.symm)
  simp [matchHere, h1, h2]

theorem findMatch_clean_append {t : List Char} (u : List Char)
    (hcl : isCleanPlain t = true) :
    findMatch (t ++ u) = (findMatch u).map (fun q => (t ++ q.1, q.2)) := by
  induction t with
  | nil =>
    simp only [List.nil_append]
    cases findMatch u with
    | none => rfl
    | some q => rfl
  | cons c cs ih =>
    simp only [isCleanPlain, List.all_cons, Bool.and_eq_true, Bool.not_eq_true',
      beq_eq_false_iff_ne, ne_eq] at hcl
    obtain ⟨⟨hstar, hund⟩, hrest⟩ := hcl
    have hcl' : isCleanPlain cs = true := hrest
    rw [List.cons_append, findMatch, matchHere_of_clean_head hstar hund, ih hcl']
    cases findMatch u with
    | none => rfl
    | some q => rfl

theorem findCloser_clean {d : List Char} (t v : List Char)
    (hd : d = star2 ∨ d = und2) (hcl : isCleanInner t = true) :
    findCloser d (t ++ d ++ v) = some (t, v) := by
  induction t with
  | nil =>
    obtain ⟨dh, dt, hdd⟩ : ∃ dh dt, d = dh :: dt := by
      cases hd with
      | inl h => exact ⟨'*', ['*'], by rw [h]; rfl⟩
      | inr h => exact ⟨'_', ['_'], by rw [h]; rfl⟩
    have hshape : ([] : List Char) ++ d ++ v = dh :: (dt ++ v) := by simp [hdd]
    have hdv : d ++ v = dh :: (dt ++ v) := by simp [hdd]
    rw [hshape, findCloser]
    have hpre : startsWith d (dh :: (dt ++ v)) = true := by
      have h0 := startsWith_append_self d v
      rwa [hdv] at h0
    rw [if_pos hpre]
    have hdrop : (dh :: (dt ++ v)).drop d.length = v := by
      rw [← hdv, List.drop_left]
    rw [hdrop]
  | cons c cs ih =>
    simp only [isCleanInner, List.all_cons, Bool.and_eq_true, Bool.not_eq_true',
      beq_eq_false_iff_ne, ne_eq] at hcl
    obtain ⟨⟨⟨hstar, hund⟩, hnl⟩, hrest⟩ := hcl
    have hcl' : isCleanInner cs = true := hrest
    show findCloser d (c :: (cs ++ d ++ v)) = some (c :: cs, v)
    rw [findCloser]
    have hsw : startsWith d (c :: (cs ++ d ++ v)) = false := by
      cases hd with
      | inl h => subst h; exact startsWith_false_of_head_ne (fun he => hstar he.symm)
      | inr h => subst h; exact startsWith_false_of_head_ne (fun he => hund he.symm)
    rw [if_neg (by rw [hsw]; exact Bool.false_ne_true), if_neg (by simpa [beq_iff_eq] using hnl), ih hcl']
    rfl

theorem findMatch_span {d : List Char} (t v : List Char)
    (hd : d = star2 ∨ d = und2) (hcl : isCleanInner t = true) :
    findMatch (d ++ t ++ d ++ v) = some ([], d, t, v) := by
  obtain ⟨dh, dt, hdd⟩ : ∃ dh dt, d = dh :: dt := by
    cases hd with
    | inl h => exact ⟨'*', ['*'], by rw [h]; rfl⟩
    | inr h => exact ⟨'_', ['_'], by rw [h]; rfl⟩
  have hdrop : (d ++ t ++ d ++ v).drop 2 = t ++ d ++ v := by
    have hlen : d.length = 2 := by
      cases hd with
      | inl h => rw [h]; rfl
      | inr h => rw [h]; rfl
    have hshape : d ++ t ++ d ++ v = d ++ (t ++ d ++ v) := by simp
    rw [hshape, ← hlen, List.drop_left]
  have hmh : matchHere (d ++ t ++ d ++ v) = some (d, t, v) := by
    cases hd with
    | inl h =>
      subst h
      have hsw : startsWith star2 (star2 ++ t ++ star2 ++ v) = true := by
        have h0 := startsWith_append_self star2 (t ++ star2 ++ v)
        have hshape : star2 ++ (t ++ star2 ++ v) = star2 ++ t ++ star2 ++ v := by simp
        rwa [hshape] at h0
      rw [matchHere, if_pos hsw, hdrop, findCloser_clean t v (Or.inl rfl) hcl]
      rfl
    | inr h =>
      subst h
      have hsw2 : startsWith star2 (und2 ++ t ++ und2 ++ v) = false := by
        have hshape : und2 ++ t ++ und2 ++ v = '_' :: ('_' :: (t ++ und2 ++ v)) := by
          simp [und2]
        rw [hshape]
        exact startsWith_false_of_head_ne (by decide)
      have hsw : startsWith und2 (und2 ++ t ++ und2 ++ v) = true := by
        have h0 := startsWith_append_self und2 (t ++ und2 ++ v)
        have hshape : und2 ++ (t ++ und2 ++ v) = und2 ++ t ++ und2 ++ v := by simp
        rwa [hshape] at h0
      rw [matchHere, if_neg (by rw [hsw2]; exact Bool.false_ne_true), if_pos hsw, hdrop,
        findCloser_clean t v (Or.inr rfl) hcl]
      rfl
  have hshape : d ++ t ++ d ++ v = dh :: (dt ++ t ++ d ++ v) := by simp [hdd]
  rw [hshape, findMatch, ← hshape, hmh]

theorem joinTexts_cons (r : Run) (rs : List Run) :
    joinTexts (r :: rs) = r.text ++ joinTexts rs := rfl

theorem joinTexts_clean_append {t : List Char} (u : List Char)
    (hcl : isCleanPlain t = true) :
    joinTexts (processMarkdownToRuns (t ++ u)) = t ++ joinTexts (processMarkdownToRuns u) := by
  cases hfm : findMatch u with
  | none =>
    have h1 : findMatch (t ++ u) = none := by
      rw [findMatch_clean_append u hcl, hfm]
      rfl
    rw [processMarkdownToRuns_of_none h1, processMarkdownToRuns_of_none hfm]
    simp [joinTexts]
  | some q =>
    obtain ⟨p, d, c, rest⟩ := q
    have h1 : findMatch (t ++ u) = some (t ++ p, d, c, rest) := by
      rw [findMatch_clean_append u hcl, hfm]
      rfl
    rw [processMarkdownToRuns_of_some h1, processMarkdownToRuns_of_some hfm]
    simp [joinTexts]

theorem segsWF_join {segs : List Seg} (h : segs.all segWF = true) :
    joinTexts (processMarkdownToRuns (renderSegs segs)) = stripSegs segs := by
  induction segs with
  | nil =>
    have h0 : findMatch (renderSegs []) = none := rfl
    rw [processMarkdownToRuns_of_none h0]
    rfl
  | cons sg rest ih =>
    simp only [List.all_cons, Bool.and_eq_true] at h
    obtain ⟨hsg, hrest⟩ := h
    cases sg with
    | plain t =>
      have hcl : isCleanPlain t = true := hsg
      show joinTexts (processMarkdownToRuns (t ++ renderSegs rest)) = t ++ stripSegs rest
      rw [joinTexts_clean_append (renderSegs rest) hcl, ih hrest]
    | emph t =>
      have hcl : isCleanInner t = true := hsg
      have hshape : renderSegs (Seg.emph t :: rest) = star2 ++ t ++ star2 ++ renderSegs rest := by
        show (star2 ++ t ++ star2) ++ renderSegs rest = star2 ++ t ++ star2 ++ renderSegs rest
        simp
      rw [hshape]
      have hfm := findMatch_span t (renderSegs rest) (Or.inl rfl) hcl
      rw [processMarkdownToRuns_of_some hfm, joinTexts_cons, joinTexts_cons, ih hrest]
      rfl
    | undl t =>
      have hcl : isCleanInner t = true := hsg
      have hshape : renderSegs (Seg.undl t :: rest) = und2 ++ t ++ und2 ++ renderSegs rest := by
        show (und2 ++ t ++ und2) ++ renderSegs rest = und2 ++ t ++ und2 ++ renderSegs rest
        simp
      rw [hshape]
      have hfm := findMatch_span t (renderSegs rest) (Or.inr rfl) hcl
      rw [processMarkdownToRuns_of_some hfm, joinTexts_cons, joinTexts_cons, ih hrest]
      rfl

/-! ## Styles and document model (PresentationStyles, SlideBuilderService)

The python-pptx document surface is modelled abstractly: a paragraph is a
level plus an ordered list of runs, a text frame is the ordered list of
paragraphs the service authors into it (the clear-before-populate calls
leave the authored content exactly as modelled), and a slide is the slide
layout index together with its title region and its one or two body
regions (placeholder 1, and placeholder 2 for the two-content layout). -/

def TITLE_FONT_NAME : String := "Calibri Light"

def BODY_FONT_NAME : String := "Calibri"

def TITLE_FONT_SIZE : Nat := 36

def BODY_FONT_SIZE : Nat := 18

def TITLE_COLOR : Nat × Nat × Nat := (0x0A, 0x2C, 0x52)

def BODY_COLOR : Nat × Nat × Nat := (0x33, 0x33, 0x33)

structure Paragraph where
  runs : List Run := []
  level : Nat := 0
deriving DecidableEq, Repr

structure TextFrame where
  paragraphs : List Paragraph := []
deriving DecidableEq, Repr

structure SlideModel where
  layoutIndex : Nat
  title : TextFrame := {}
  body : TextFrame := {}
  body2 : TextFrame := {}
deriving DecidableEq, Repr

/-- Model of the per-run body of SlideBuilderService._apply_font_style:
the font name is overridden only when the run is not bold, while size and
color are always overridden with the role constants. -/
def applyFontStyleRun (isTitle : Bool) (r : Run) : Run :=
  if isTitle then
    { r with
      fontName := if r.bold ≠ some true then some TITLE_FONT_NAME else r.fontName,
      fontSize := some TITLE_FONT_SIZE,
      fontColor := some TITLE_COLOR }
  else
    { r with
      fontName := if r.bold ≠ some true then some BODY_FONT_NAME else r.fontName,
      fontSize := some BODY_FONT_SIZE,
      fontColor := some BODY_COLOR }

/-- Model of SlideBuilderService._apply_font_style over a whole text frame. -/
def applyFontStyle (isTitle : Bool) (tf : TextFrame) : TextFrame :=
  { paragraphs := tf.paragraphs.map
      (fun p => { p with runs := p.runs.map (applyFontStyleRun isTitle) }) }

/-- A paragraph authored through _process_markdown_to_runs at a given
indentation level. -/
def mdParagraph (text : String) (lvl : Nat) : Paragraph :=
  { runs := processMarkdownToRuns text.data, level := lvl }

/-- The content dictionary of a slide record; a none field models an absent
dictionary key, read back with dict.get. -/
structure ColumnDict where
  heading : Option String := none
  points : Option (List String) := none
deriving DecidableEq, Repr

structure ContentDict where
  title : Option String := none
  subtitle : Option String := none
  points : Option (List String) := none
  leftColumn : Option ColumnDict := none
  rightColumn : Option ColumnDict := none
deriving DecidableEq, Repr

/-- Python truthiness of an optional string: both an absent key and an
empty string are falsy. -/
def truthyStr : Option String → Bool
  | none => false
  | some s => !(s == "")

/-- Model of SlideBuilderService._add_title_slide. -/
def addTitleSlide (content : ContentDict) : SlideModel :=
  { layoutIndex := 0,
    title := applyFontStyle true
      { paragraphs := [mdParagraph (content.title.getD "Presentation Title") 0] },
    body := applyFontStyle false
      { paragraphs := [mdParagraph (content.subtitle.getD "") 0] } }

/-- Model of SlideBuilderService._add_bullet_points_slide. -/
def addBulletPointsSlide (content : ContentDict) : SlideModel :=
  { layoutIndex := 1,
    title := applyFontStyle true
      { paragraphs := [mdParagraph (content.title.getD "Slide Title") 0] },
    body := applyFontStyle false
      { paragraphs := (content.points.getD []).map (fun pt => mdParagraph pt 0) } }

/-- One column region of the two-content layout: the heading paragraph is
authored only when the heading value is truthy, then one paragraph per
point at indentation level 1. -/
def renderColumn (col : ColumnDict) : TextFrame :=
  { paragraphs :=
      (if truthyStr col.heading then [mdParagraph (col.heading.getD "") 0] else [])
        ++ (col.points.getD []).map (fun pt => mdParagraph pt 1) }

/-- Model of SlideBuilderService._add_two_column_slide. -/
def addTwoColumnSlide (content : ContentDict) : SlideModel :=
  { layoutIndex := 3,
    title := applyFontStyle true
      { paragraphs := [mdParagraph (content.title.getD "Two Column Title") 0] },
    body := applyFontStyle false (renderColumn (content.leftColumn.getD {})),
    body2 := applyFontStyle false (renderColumn (content.rightColumn.getD {})) }

/-- A slide record of the content tree; the layout key may be absent. -/
structure SlideRecord where
  layout : Option String := none
  content : ContentDict := {}
deriving DecidableEq, Repr

/-- The top-level presentation data dictionary, read with get on "slides". -/
structure PresentationData where
  slides : Option (List SlideRecord) := none
deriving DecidableEq, Repr

/-- The assembled document: its slides in order, and whether the blank
default presentation was used because the template file was missing
(the logged degraded-mode signal). -/
structure Prs where
  slides : List SlideModel := []
  usedFallback : Bool := false
deriving DecidableEq, Repr

def isKnownLayout (l : Option String) : Bool :=
  l == some "title_slide" || l == some "bullet_points" || l == some "two_column"

/-- The slide produced for a record with a recognized layout tag. -/
def renderRecord (r : SlideRecord) : SlideModel :=
  if r.layout = some "title_slide" then addTitleSlide r.content
  else if r.layout = some "bullet_points" then addBulletPointsSlide r.content
  else addTwoColumnSlide r.content

/-- The dispatch body of the loop in create_presentation: a recognized
layout appends exactly one slide, anything else leaves the document as is. -/
def dispatchSlide (prs : Prs) (r : SlideRecord) : Prs :=
  if r.layout = some "title_slide" then
    { prs with slides := prs.slides ++ [addTitleSlide r.content] }
  else if r.layout = some "bullet_points" then
    { prs with slides := prs.slides ++ [addBulletPointsSlide r.content] }
  else if r.layout = some "two_column" then
    { prs with slides := prs.slides ++ [addTwoColumnSlide r.content] }
  else prs

def templatePathFor (aspect : String) : String :=
  if aspect = "4:3" then "template_4_3.pptx" else "template_16_9.pptx"

/-- Model of SlideBuilderService.create_presentation: choose the template by
aspect, fall back to the blank default document when the template file is
not resolvable, then render every slide record in order.  The tplOk
argument models which template files the process can open. -/
def createPresentation (tplOk : String → Bool) (presentationData : PresentationData)
    (aspect : String) : Prs :=
  (presentationData.slides.getD []).foldl dispatchSlide
    (if tplOk (templatePathFor aspect) then { usedFallback := false }
     else { usedFallback := true })

/-! ## Content cache (LLMService.generate_slides_content)

The cache is a Python dict, which preserves insertion order; it is
modelled as a list of key-value pairs, oldest entry first.  Re-assigning
an existing key keeps its position, a new key is appended at the end,
next(iter(cache)) is the key of the head entry, and del removes the entry
with that key.  The upstream model call together with the JSON parse of
its response is modelled by a producer function returning either a content
tree value or a generation error; the returned flag records whether the
producer was consulted (cache miss) or not (cache hit). -/

/-- Per-character model of Python str.lower applied to the topic. -/
def strLower (s : String) : String := String.mk (s.data.map Char.toLower)

abbrev CacheKey := String × Nat

def maxCacheSize : Nat := 100

def dictLookup {α : Type} (c : List (CacheKey × α)) (k : CacheKey) : Option α :=
  (c.find? (fun e => decide (e.1 = k))).map (fun e => e.2)

def dictInsert {α : Type} (c : List (CacheKey × α)) (k : CacheKey) (v : α) :
    List (CacheKey × α) :=
  if (c.find? (fun e => decide (e.1 = k))).isSome then
    c.map (fun e => if e.1 = k then (k, v) else e)
  else c ++ [(k, v)]

def oldestKey {α : Type} (c : List (CacheKey × α)) : Option CacheKey :=
  c.head?.map (fun e => e.1)

def dictEraseKey {α : Type} (c : List (CacheKey × α)) (k : CacheKey) :
    List (CacheKey × α) :=
  c.eraseP (fun e => decide (e.1 = k))

/-- The eviction step: when the size bound is exceeded, remove the entry of
the oldest-inserted key. -/
def trimCache {α : Type} (c : List (CacheKey × α)) : List (CacheKey × α) :=
  if maxCacheSize < c.length then
    match oldestKey c with
    | some k => dictEraseKey c k
    | none => c
  else c

inductive GenResult (α : Type)
  | ok (v : α)
  | genError
deriving DecidableEq, Repr

structure GenOutcome (α : Type) where
  result : GenResult α
  cache : List (CacheKey × α)
  called : Bool
deriving DecidableEq, Repr

/-- Model of LLMService.generate_slides_content: normalize the key by
lowercasing the topic, return a stored tree on a hit without consulting
the producer, otherwise consult the producer once; a successful result is
stored and the cache trimmed, an error result is returned without touching
the cache. -/
def generateSlidesContent {α : Type} (c : List (CacheKey × α)) (topic : String)
    (numSlides : Nat) (producer : String → Nat → GenResult α) : GenOutcome α :=
  let key : CacheKey := (strLower topic, numSlides)
  match dictLookup c key with
  | some v => { result := .ok v, cache := c, called := false }
  | none =>
    match producer topic numSlides with
    | .genError => { result := .genError, cache := c, called := true }
    | .ok v => { result := .ok v, cache := trimCache (dictInsert c key v), called := true }

/-- The normalized cache key of a (topic, num_slides) request. -/
def normKey (tn : String × Nat) : CacheKey := (strLower tn.1, tn.2)

/-- A sequence of generate calls that all succeed with tree 0, threading the
cache; used to state the 101-insertion scenario. -/
def runCalls (c : List (CacheKey × Nat)) (calls : List (String × Nat)) :
    List (CacheKey × Nat) :=
  calls.foldl (fun st tn => (generateSlidesContent st tn.1 tn.2 (fun _ _ => .ok 0)).cache) c

theorem dictLookup_eq_none {α : Type} {c : List (CacheKey × α)} {k : CacheKey}
    (h : k ∉ c.map Prod.fst) : dictLookup c k = none := by
  unfold dictLookup
  rw [List.find?_eq_none.mpr]
  · rfl
  · intro e he
    simp only [decide_eq_true_eq]
    intro hek
    exact h (hek ▸ List.mem_map_of_mem Prod.fst he)

theorem dictLookup_none_forall {α : Type} {c : List (CacheKey × α)} {k : CacheKey}
    (h : dictLookup c k = none) : ∀ e ∈ c, e.1 ≠ k := by
  intro e he
  unfold dictLookup at h
  rw [Option.map_eq_none'] at h
  have := List.find?_eq_none.mp h e he
  simpa using this

theorem dictLookup_append_fresh {α : Type} {c : List (CacheKey × α)} {k : CacheKey} {v : α}
    (h : ∀ e ∈ c, e.1 ≠ k) : dictLookup (c ++ [(k, v)]) k = some v := by
  induction c with
  | nil =>
    unfold dictLookup
    rw [List.nil_append, List.find?_cons_of_pos _ (by simp)]
    rfl
  | cons e es ih =>
    have hek : e.1 ≠ k := h e (List.mem_cons_self e es)
    unfold dictLookup
    rw [List.cons_append, List.find?_cons_of_neg _ (by simpa using hek)]
    exact ih (fun x hx => h x (List.mem_cons_of_mem e hx))

theorem dictInsert_fresh {α : Type} {c : List (CacheKey × α)} {k : CacheKey} {v : α}
    (h : dictLookup c k = none) : dictInsert c k v = c ++ [(k, v)] := by
  unfold dictInsert
  unfold dictLookup at h
  rw [Option.map_eq_none'] at h
  rw [h]
  rfl

theorem trimCache_small {α : Type} {c : List (CacheKey × α)} (h : c.length ≤ maxCacheSize) :
    trimCache c = c := by
  unfold trimCache
  rw [if_neg (by omega)]

theorem trimCache_cons {α : Type} {e : CacheKey × α} {c : List (CacheKey × α)}
    (h : maxCacheSize < (e :: c).length) : trimCache (e :: c) = c := by
  unfold trimCache
  rw [if_pos h]
  show dictEraseKey (e :: c) e.1 = c
  unfold dictEraseKey
  rw [List.eraseP_cons_of_pos (by simp)]

theorem generate_hit {α : Type} {c : List (CacheKey × α)} {topic : String} {n : Nat}
    {p : String → Nat → GenResult α} {v : α}
    (h : dictLookup c (strLower topic, n) = some v) :
    generateSlidesContent c topic n p = { result := .ok v, cache := c, called := false } := by
  unfold generateSlidesContent
  simp only [h]

theorem generate_miss_err {α : Type} {c : List (CacheKey × α)} {topic : String} {n : Nat}
    {p : String → Nat → GenResult α}
    (hmiss : dictLookup c (strLower topic, n) = none) (hp : p topic n = .genError) :
    generateSlidesContent c topic n p = { result := .genError, cache := c, called := true } := by
  unfold generateSlidesContent
  simp only [hmiss, hp]

theorem generate_miss_ok {α : Type} {c : List (CacheKey × α)} {topic : String} {n : Nat}
    {p : String → Nat → GenResult α} {v : α}
    (hmiss : dictLookup c (strLower topic, n) = none) (hp : p topic n = .ok v) :
    generateSlidesContent c topic n p =
      { result := .ok v,
        cache := trimCache (dictInsert c (strLower topic, n) v),
        called := true } := by
  unfold generateSlidesContent
  simp only [hmiss, hp]

theorem runCalls_nil (c : List (CacheKey × Nat)) : runCalls c [] = c := rfl

theorem runCalls_cons (c : List (CacheKey × Nat)) (tn : String × Nat)
    (calls : List (String × Nat)) :
    runCalls c (tn :: calls) =
      runCalls (generateSlidesContent c tn.1 tn.2 (fun _ _ => .ok 0)).cache calls := rfl

theorem runCalls_append (c : List (CacheKey × Nat)) (xs ys : List (String × Nat)) :
    runCalls c (xs ++ ys) = runCalls (runCalls c xs) ys := by
  unfold runCalls
  exact List.foldl_append _ _ xs ys

theorem runCalls_fill : ∀ (calls : List (String × Nat)) (c : List (CacheKey × Nat)),
    c.length + calls.length ≤ maxCacheSize →
    (c.map Prod.fst ++ calls.map normKey).Nodup →
    runCalls c calls = c ++ calls.map (fun tn => (normKey tn, 0)) := by
  intro calls
  induction calls with
  | nil =>
    intro c _ _
    simp [runCalls_nil]
  | cons tn rest ih =>
    intro c hlen hnd
    have hnd' := hnd
    rw [List.map_cons, List.nodup_append] at hnd'
    obtain ⟨hnd1, hnd2, hdisj⟩ := hnd'
    have hfresh : normKey tn ∉ c.map Prod.fst := by
      intro hmem
      exact hdisj hmem (List.mem_cons_self _ _)
    have hmiss : dictLookup c (normKey tn) = none := dictLookup_eq_none hfresh
    have hmiss' : dictLookup c (strLower tn.1, tn.2) = none := hmiss
    rw [runCalls_cons,
      generate_miss_ok hmiss' rfl]
    have hins : dictInsert c (strLower tn.1, tn.2) 0 = c ++ [(normKey tn, 0)] :=
      dictInsert_fresh hmiss'
    have hlen1 : (c ++ [(normKey tn, 0)]).length ≤ maxCacheSize := by
      simp only [List.length_append, List.length_cons, List.length_nil]
      simp only [List.length_cons] at hlen
      omega
    simp only [GenOutcome.mk.injEq] at *
    rw [hins, trimCache_small hlen1]
    have hmap : (c ++ [(normKey tn, 0)]).map Prod.fst = c.map Prod.fst ++ [normKey tn] := by
      simp
    have hnd2' : ((c ++ [(normKey tn, 0)]).map Prod.fst ++ rest.map normKey).Nodup := by
      rw [hmap]
      have : c.map Prod.fst ++ [normKey tn] ++ rest.map normKey
          = c.map Prod.fst ++ normKey tn :: rest.map normKey := by
        simp
      rw [this]
      simpa using hnd
    have hlen2 : (c ++ [(normKey tn, 0)]).length + rest.length ≤ maxCacheSize := by
      simp only [List.length_append, List.length_cons, List.length_nil]
      simp only [List.length_cons] at hlen
      omega
    rw [ih (c ++ [(normKey tn, 0)]) hlen2 hnd2']
    simp

theorem dictLookup_map_entry : ∀ {l : List (String × Nat)},
    (l.map normKey).Nodup → ∀ {tn : String × Nat}, tn ∈ l →
    dictLookup (l.map (fun tn => (normKey tn, 0))) (normKey tn) = some 0 := by
  intro l
  induction l with
  | nil =>
    intro _ tn h
    simp at h
  | cons x xs ih =>
    intro hnd tn hmem
    rw [List.map_cons, List.nodup_cons] at hnd
    obtain ⟨hx, hnd'⟩ := hnd
    cases List.mem_cons.mp hmem with
    | inl h =>
      subst h
      unfold dictLookup
      rw [List.map_cons, List.find?_cons_of_pos _ (by simp)]
      rfl
    | inr h =>
      have hne : normKey x ≠ normKey tn := by
        intro he
        exact hx (he ▸ List.mem_map_of_mem normKey h)
      unfold dictLookup
      rw [List.map_cons, List.find?_cons_of_neg _ (by simpa using hne)]
      exact ih hnd' h

theorem regexSplit_length_mod (s : List Char) : (regexSplit s).length % 3 = 1 := by
  cases hfm : findMatch s with
  | none => rw [regexSplit_of_none hfm]; rfl
  | some q =>
    obtain ⟨p, d, c, rest⟩ := q
    rw [regexSplit_of_some hfm]
    have hlt : rest.length < s.length := findMatch_rest_lt hfm
    have ih := regexSplit_length_mod rest
    simp only [List.length_cons]
    omega
termination_by s.length

theorem foldl_dispatch : ∀ (data : List SlideRecord) (prs0 : Prs),
    (data.foldl dispatchSlide prs0).slides
      = prs0.slides ++ data.filterMap
          (fun r => if isKnownLayout r.layout then some (renderRecord r) else none)
    ∧ (data.foldl dispatchSlide prs0).usedFallback = prs0.usedFallback := by
  intro data
  induction data with
  | nil =>
    intro prs0
    simp
  | cons r rs ih =>
    intro prs0
    rw [List.foldl_cons, List.filterMap_cons]
    by_cases h1 : r.layout = some "title_slide"
    · have hd : dispatchSlide prs0 r
          = { prs0 with slides := prs0.slides ++ [addTitleSlide r.content] } := by
        simp [dispatchSlide, h1]
      have hk : isKnownLayout r.layout = true := by simp [isKnownLayout, h1]
      have hr : renderRecord r = addTitleSlide r.content := by simp [renderRecord, h1]
      obtain ⟨ihs, ihf⟩ := ih { prs0 with slides := prs0.slides ++ [addTitleSlide r.content] }
      rw [hd]
      constructor
      · rw [ihs]
        simp [hk, hr]
      · rw [ihf]
    · by_cases h2 : r.layout = some "bullet_points"
      · have hd : dispatchSlide prs0 r
            = { prs0 with slides := prs0.slides ++ [addBulletPointsSlide r.content] } := by
          simp [dispatchSlide, h1, h2]
        have hk : isKnownLayout r.layout = true := by simp [isKnownLayout, h2]
        have hr : renderRecord r = addBulletPointsSlide r.content := by
          simp [renderRecord, h1, h2]
        obtain ⟨ihs, ihf⟩ :=
          ih { prs0 with slides := prs0.slides ++ [addBulletPointsSlide r.content] }
        rw [hd]
        constructor
        · rw [ihs]
          simp [hk, hr]
        · rw [ihf]
      · by_cases h3 : r.layout = some "two_column"
        · have hd : dispatchSlide prs0 r
              = { prs0 with slides := prs0.slides ++ [addTwoColumnSlide r.content] } := by
            simp [dispatchSlide, h1, h2, h3]
          have hk : isKnownLayout r.layout = true := by simp [isKnownLayout, h3]
          have hr : renderRecord r = addTwoColumnSlide r.content := by
            simp [renderRecord, h1, h2]
          obtain ⟨ihs, ihf⟩ :=
            ih { prs0 with slides := prs0.slides ++ [addTwoColumnSlide r.content] }
          rw [hd]
          constructor
          · rw [ihs]
            simp [hk, hr]
          · rw [ihf]
        · have hd : dispatchSlide prs0 r = prs0 := by
            simp [dispatchSlide, h1, h2, h3]
          have hk : isKnownLayout r.layout = false := by
            simp [isKnownLayout, h1, h2, h3]
          rw [hd]
          obtain ⟨ihs, ihf⟩ := ih prs0
          constructor
          · rw [ihs]
            simp [hk]
          · rw [ihf]

theorem filterMap_known_length (data : List SlideRecord) :
    (data.filterMap
        (fun r => if isKnownLayout r.layout then some (renderRecord r) else none)).length
      = (data.filter (fun r => isKnownLayout r.layout)).length := by
  induction data with
  | nil => rfl
  | cons r rs ih =>
    rw [List.filterMap_cons, List.filter_cons]
    cases h : isKnownLayout r.layout with
    | true => simp [ih]
    | false => simp [ih]

theorem dictLookup_trim_insert {α : Type} {c : List (CacheKey × α)} {k : CacheKey} {v : α}
    (h : dictLookup c k = none) :
    dictLookup (trimCache (c ++ [(k, v)])) k = some v := by
  have hall := dictLookup_none_forall h
  by_cases hsz : (c ++ [(k, v)]).length ≤ maxCacheSize
  · rw [trimCache_small hsz]
    exact dictLookup_append_fresh hall
  · cases c with
    | nil => simp [maxCacheSize] at hsz
    | cons e c' =>
      rw [List.cons_append, trimCache_cons (by push_neg at hsz; simpa using hsz)]
      exact dictLookup_append_fresh fun x hx => hall x (List.mem_cons_of_mem e hx)

theorem generate_called_of_miss {α : Type} {c : List (CacheKey × α)} {topic : String}
    {n : Nat} {p : String → Nat → GenResult α}
    (hmiss : dictLookup c (strLower topic, n) = none) :
    (generateSlidesContent c topic n p).called = true := by
  cases hp : p topic n with
  | ok v => rw [generate_miss_ok hmiss hp]
  | genError => rw [generate_miss_err hmiss hp]

/-- The final cache state of the 101-distinct-keys scenario: the entries are
exactly those of the 2nd through 101st requests, in order. -/
theorem cache_101_final (k0 : String × Nat) (rest : List (String × Nat))
    (hlen : rest.length = 100)
    (hnd : ((k0 :: rest).map normKey).Nodup) :
    runCalls [] (k0 :: rest) = rest.map (fun tn => (normKey tn, 0)) := by
  have hd1 : (rest.drop 99).length = 1 := by rw [List.length_drop, hlen]
  obtain ⟨klast, hkl⟩ := List.length_eq_one.mp hd1
  have hsplit : rest = rest.take 99 ++ [klast] := by
    conv_lhs => rw [← List.take_append_drop 99 rest]
    rw [hkl]
  have h99 : (rest.take 99).length = 99 := by
    rw [List.length_take, hlen]
    omega
  have hcons : k0 :: rest = (k0 :: rest.take 99) ++ [klast] := by
    rw [List.cons_append, ← hsplit]
  have hnd2 : ((k0 :: rest.take 99).map normKey ++ [normKey klast]).Nodup := by
    have hshape : (k0 :: rest).map normKey
        = (k0 :: rest.take 99).map normKey ++ [normKey klast] := by
      rw [hcons, List.map_append]
      rfl
    rwa [hshape] at hnd
  rw [List.nodup_append] at hnd2
  obtain ⟨hndA, _, hdisj⟩ := hnd2
  have hdisjA : normKey klast ∉ (k0 :: rest.take 99).map normKey :=
    fun hm => hdisj hm (by simp)
  have hfill : runCalls [] (k0 :: rest.take 99)
      = (k0 :: rest.take 99).map (fun tn => (normKey tn, 0)) := by
    have h := runCalls_fill (k0 :: rest.take 99) []
      (by simp [h99, maxCacheSize]) (by simpa using hndA)
    simpa using h
  rw [hcons, runCalls_append, hfill]
  have hkeys : ((k0 :: rest.take 99).map (fun tn => (normKey tn, 0))).map Prod.fst
      = (k0 :: rest.take 99).map normKey := by
    rw [List.map_map]
    rfl
  have hmiss : dictLookup ((k0 :: rest.take 99).map (fun tn => (normKey tn, 0)))
      (normKey klast) = none :=
    dictLookup_eq_none (by rw [hkeys]; exact hdisjA)
  have hmiss' : dictLookup ((k0 :: rest.take 99).map (fun tn => (normKey tn, 0)))
      (strLower klast.1, klast.2) = none := hmiss
  rw [show runCalls ((k0 :: rest.take 99).map (fun tn => (normKey tn, 0))) [klast]
      = (generateSlidesContent ((k0 :: rest.take 99).map (fun tn => (normKey tn, 0)))
          klast.1 klast.2 (fun _ _ => .ok 0)).cache from rfl]
  rw [generate_miss_ok hmiss' rfl, dictInsert_fresh hmiss']
  have hshape2 : (k0 :: rest.take 99).map (fun tn => (normKey tn, 0))
        ++ [((strLower klast.1, klast.2), 0)]
      = (normKey k0, 0)
        :: ((rest.take 99).map (fun tn => (normKey tn, 0)) ++ [(normKey klast, 0)]) := by
    rw [List.map_cons, List.cons_append]
    rfl
  rw [hshape2, trimCache_cons (by
    simp only [maxCacheSize, List.length_cons, List.length_append, List.length_map,
      List.length_take, List.length_nil, hlen]
    omega)]
  conv_rhs => rw [hsplit]
  rw [List.map_append]
  rfl

/-! ## Claims -/

/-- C1: for every well-formed delimiter-balanced input string (a
concatenation of delimiter-free plain segments and doubled-star or
doubled-underscore delimited spans), concatenating the text fields of all
runs produced by _process_markdown_to_runs, in order, equals the input
with all delimiter pairs removed; zero-length plain segments are kept as
empty runs, so the reconstruction is exact. -/
theorem span_concat_identity_claim (segs : List Seg) (hwf : segs.all segWF = true) :
    joinTexts (processMarkdownToRuns (renderSegs segs)) = stripSegs segs :=
  segsWF_join hwf

theorem span_concat_identity_claim_witness :
    ([Seg.plain "a ".data, Seg.emph "b".data, Seg.plain "".data,
        Seg.undl "c".data, Seg.plain " d".data].all segWF = true)
    ∧ joinTexts (processMarkdownToRuns (renderSegs
        [Seg.plain "a ".data, Seg.emph "b".data, Seg.plain "".data,
          Seg.undl "c".data, Seg.plain " d".data]))
      = stripSegs [Seg.plain "a ".data, Seg.emph "b".data, Seg.plain "".data,
          Seg.undl "c".data, Seg.plain " d".data] :=
  ⟨by decide, span_concat_identity_claim _ (by decide)⟩

/-- C10: the markup parser is total on every input: the regex split always
returns a parts list of length 1 modulo 3, which is exactly the bound that
keeps the stride-3 loop's accesses at i+1 and i+2 in range; and an input
holding a stray delimiter with no matching closer is emitted unchanged as a
single plain run with the stray delimiter kept literally. -/
theorem parser_totality_claim :
    (∀ s : List Char, (regexSplit s).length % 3 = 1)
    ∧ processMarkdownToRuns "a ** b".data = [{ text := "a ** b".data }]
    ∧ processMarkdownToRuns "**".data = [{ text := "**".data }] :=
  ⟨regexSplit_length_mod, by decide, by decide⟩

/-- C2: the content cache holds at most 100 entries after every call; when
an insertion would exceed the bound, exactly the single oldest-inserted
entry is evicted (strict insertion-order FIFO); a lookup hit leaves the
cache completely unchanged; and inserting 101 distinct (topic, num_slides)
keys leaves exactly 100 entries with the first-inserted key absent and the
2nd through 101st present. -/
theorem cache_bound_fifo_claim :
    (∀ (α : Type) (c : List (CacheKey × α)) (t : String) (n : Nat)
        (p : String → Nat → GenResult α),
      c.length ≤ maxCacheSize →
      (generateSlidesContent c t n p).cache.length ≤ maxCacheSize)
    ∧ (∀ (α : Type) (c : List (CacheKey × α)) (t : String) (n : Nat)
        (p : String → Nat → GenResult α) (v : α),
      dictLookup c (strLower t, n) = some v →
      generateSlidesContent c t n p = { result := .ok v, cache := c, called := false })
    ∧ (∀ (α : Type) (c : List (CacheKey × α)) (t : String) (n : Nat)
        (p : String → Nat → GenResult α) (v : α),
      dictLookup c (strLower t, n) = none → p t n = .ok v →
      c.length = maxCacheSize →
      (generateSlidesContent c t n p).cache = c.drop 1 ++ [((strLower t, n), v)])
    ∧ (∀ (k0 : String × Nat) (rest : List (String × Nat)),
      rest.length = 100 →
      ((k0 :: rest).map normKey).Nodup →
      (runCalls [] (k0 :: rest)).length = 100
      ∧ dictLookup (runCalls [] (k0 :: rest)) (normKey k0) = none
      ∧ ∀ tn ∈ rest, dictLookup (runCalls [] (k0 :: rest)) (normKey tn) = some 0) := by
  refine ⟨?_, ?_, ?_, ?_⟩
  · intro α c t n p hle
    cases hl : dictLookup c (strLower t, n) with
    | some v => rw [generate_hit hl]; exact hle
    | none =>
      cases hp : p t n with
      | genError => rw [generate_miss_err hl hp]; exact hle
      | ok v =>
        rw [generate_miss_ok hl hp, dictInsert_fresh hl]
        by_cases hsz : (c ++ [((strLower t, n), v)]).length ≤ maxCacheSize
        · rw [trimCache_small hsz]; exact hsz
        · cases c with
          | nil => simp [maxCacheSize] at hsz
          | cons e c' =>
            rw [List.cons_append, trimCache_cons (by push_neg at hsz; simpa using hsz)]
            simp only [List.length_append, List.length_cons, List.length_nil] at *
            omega
  · intro α c t n p v h
    exact generate_hit h
  · intro α c t n p v hmiss hp hfull
    rw [generate_miss_ok hmiss hp, dictInsert_fresh hmiss]
    cases c with
    | nil => simp [maxCacheSize] at hfull
    | cons e c' =>
      rw [List.cons_append, trimCache_cons (by
        simp only [List.length_cons] at hfull
        simp only [List.length_cons, List.length_append, List.length_nil]
        omega)]
      rfl
  · intro k0 rest hlen hnd
    have hfinal := cache_101_final k0 rest hlen hnd
    have hnd' := hnd
    rw [List.map_cons, List.nodup_cons] at hnd'
    obtain ⟨hk0, hndrest⟩ := hnd'
    have hkeys : (rest.map (fun tn => (normKey tn, 0))).map Prod.fst = rest.map normKey := by
      rw [List.map_map]
      rfl
    refine ⟨?_, ?_, ?_⟩
    · rw [hfinal]
      simp [hlen]
    · rw [hfinal]
      exact dictLookup_eq_none (by rw [hkeys]; exact hk0)
    · intro tn htn
      rw [hfinal]
      exact dictLookup_map_entry hndrest htn

theorem cache_bound_fifo_claim_witness :
    (((List.range 100).map (fun i => (("t" : String), i + 1))).length = 100)
    ∧ ((((("t" : String), 0) :: (List.range 100).map (fun i => (("t" : String), i + 1))).map
        normKey).Nodup)
    ∧ (runCalls []
        ((("t" : String), 0) :: (List.range 100).map (fun i => (("t" : String), i + 1)))).length
        = 100
    ∧ dictLookup
        (runCalls []
          ((("t" : String), 0) :: (List.range 100).map (fun i => (("t" : String), i + 1))))
        (normKey (("t" : String), 0)) = none := by
  have hlen : ((List.range 100).map (fun i => (("t" : String), i + 1))).length = 100 := by
    simp
  have hmapn : (((("t" : String), 0)
        :: (List.range 100).map (fun i => (("t" : String), i + 1))).map normKey)
      = (("t" : String), 0) :: (List.range 100).map (fun i => (("t" : String), i + 1)) := by
    rw [List.map_cons, List.map_map]
    rfl
  have hnd : (((("t" : String), 0)
      :: (List.range 100).map (fun i => (("t" : String), i + 1))).map normKey).Nodup := by
    rw [hmapn]
    refine List.nodup_cons.mpr ⟨?_, ?_⟩
    · intro hmem
      obtain ⟨i, _, he⟩ := List.mem_map.mp hmem
      simp at he
    · refine (List.nodup_range 100).map ?_
      intro a b hab
      simpa using hab
  have h := cache_bound_fifo_claim.2.2.2 (("t" : String), 0)
    ((List.range 100).map (fun i => (("t" : String), i + 1))) hlen hnd
  exact ⟨hlen, hnd, h.1, h.2.1⟩

/-- C3: cache keys are normalized by lowercasing the topic, and a cache hit
returns the stored tree without consulting the producer: after a successful
call for a topic, a second call with any case variant of the topic and the
same slide count returns the same tree, and the producer is consulted at
most once across the two calls. -/
theorem cache_case_insensitive_claim :
    ∀ (α : Type) (c : List (CacheKey × α)) (t1 t2 : String) (n : Nat)
      (p : String → Nat → GenResult α) (v : α),
      strLower t1 = strLower t2 →
      (generateSlidesContent c t1 n p).result = .ok v →
      (generateSlidesContent (generateSlidesContent c t1 n p).cache t2 n p).result = .ok v
      ∧ ((if (generateSlidesContent c t1 n p).called then 1 else 0)
          + (if (generateSlidesContent
                  (generateSlidesContent c t1 n p).cache t2 n p).called then 1 else 0)
          : Nat) ≤ 1 := by
  intro α c t1 t2 n p v hlow hok
  cases hl : dictLookup c (strLower t1, n) with
  | some w =>
    rw [generate_hit hl] at hok ⊢
    simp only at hok
    have hl2 : dictLookup c (strLower t2, n) = some w := by
      rw [← hlow]
      exact hl
    rw [generate_hit hl2]
    simp [hok]
  | none =>
    cases hp : p t1 n with
    | genError =>
      rw [generate_miss_err hl hp] at hok
      simp at hok
    | ok w =>
      rw [generate_miss_ok hl hp] at hok ⊢
      simp only at hok
      have hl2 : dictLookup (trimCache (dictInsert c (strLower t1, n) w))
          (strLower t2, n) = some w := by
        rw [← hlow, dictInsert_fresh hl]
        exact dictLookup_trim_insert hl
      rw [generate_hit hl2]
      simp [hok]

theorem cache_case_insensitive_claim_witness :
    (strLower "Rome" = strLower "rome")
    ∧ ((generateSlidesContent ([] : List (CacheKey × Nat)) "Rome" 5
          (fun _ _ => .ok 7)).result = .ok 7)
    ∧ ((generateSlidesContent
          (generateSlidesContent ([] : List (CacheKey × Nat)) "Rome" 5
            (fun _ _ => .ok 7)).cache
          "rome" 5 (fun _ _ => .ok 7)).result = .ok 7)
    ∧ ((if (generateSlidesContent ([] : List (CacheKey × Nat)) "Rome" 5
            (fun _ _ => .ok 7)).called then 1 else 0)
        + (if (generateSlidesContent
            (generateSlidesContent ([] : List (CacheKey × Nat)) "Rome" 5
              (fun _ _ => .ok 7)).cache
            "rome" 5 (fun _ _ => .ok 7)).called then 1 else 0)
        : Nat) ≤ 1 := by
  have h := cache_case_insensitive_claim Nat [] "Rome" "rome" 5
    (fun _ _ => .ok 7) 7 (by decide) (by decide)
  exact ⟨by decide, by decide, h.1, h.2⟩

/-- C4: when the producer fails on a cache miss, the error result is
returned to the caller, the cache is left unchanged (the error is never
stored), and a subsequent identical request consults the producer again. -/
theorem cache_error_not_cached_claim :
    ∀ (α : Type) (c : List (CacheKey × α)) (t : String) (n : Nat)
      (p p' : String → Nat → GenResult α),
      dictLookup c (strLower t, n) = none →
      p t n = .genError →
      (generateSlidesContent c t n p).result = .genError
      ∧ (generateSlidesContent c t n p).cache = c
      ∧ (generateSlidesContent c t n p).called = true
      ∧ (generateSlidesContent (generateSlidesContent c t n p).cache t n p').called = true := by
  intro α c t n p p' hmiss hp
  rw [generate_miss_err hmiss hp]
  exact ⟨rfl, rfl, rfl, generate_called_of_miss hmiss⟩

theorem cache_error_not_cached_claim_witness :
    (dictLookup ([] : List (CacheKey × Nat)) (strLower "x", 1) = none)
    ∧ ((generateSlidesContent ([] : List (CacheKey × Nat)) "x" 1
          (fun _ _ => .genError)).result = .genError)
    ∧ ((generateSlidesContent ([] : List (CacheKey × Nat)) "x" 1
          (fun _ _ => .genError)).cache = [])
    ∧ ((generateSlidesContent
          (generateSlidesContent ([] : List (CacheKey × Nat)) "x" 1
            (fun _ _ => .genError)).cache
          "x" 1 (fun _ _ => .ok 3)).called = true) := by
  have h := cache_error_not_cached_claim Nat [] "x" 1
    (fun _ _ => .genError) (fun _ _ => .ok 3) (by decide) rfl
  exact ⟨by decide, h.1, h.2.1, h.2.2.2⟩

/-- C5: the document assembler emits exactly one slide per record whose
layout tag is title_slide, bullet_points or two_column, in input order, and
silently skips every record with any other layout value; a tree with one
bogus-layout record and one title_slide record yields exactly one slide. -/
theorem unknown_layout_skip_claim :
    (∀ (tplOk : String → Bool) (data : List SlideRecord) (aspect : String),
      (createPresentation tplOk { slides := some data } aspect).slides
        = data.filterMap
            (fun r => if isKnownLayout r.layout then some (renderRecord r) else none))
    ∧ (createPresentation (fun _ => true)
        { slides := some
            [{ layout := some "bogus" },
             { layout := some "title_slide", content := { title := some "T" } }] }
        "16:9").slides.length = 1 := by
  constructor
  · intro tplOk data aspect
    unfold createPresentation
    by_cases ht : tplOk (templatePathFor aspect) = true
    · rw [if_pos ht]
      simpa using (foldl_dispatch data { usedFallback := false }).1
    · rw [if_neg ht]
      simpa using (foldl_dispatch data { usedFallback := true }).1
  · decide

/-- C6: if the aspect-ratio-selected template resource cannot be located,
assembly does not fail: it falls back to the blank default document,
records that the fallback occurred, and still produces a document with
exactly one slide per non-skipped record of the content tree. -/
theorem template_fallback_claim :
    ∀ (data : List SlideRecord) (aspect : String),
      (createPresentation (fun _ => false) { slides := some data } aspect).usedFallback = true
      ∧ (createPresentation (fun _ => false) { slides := some data } aspect).slides.length
          = (data.filter (fun r => isKnownLayout r.layout)).length := by
  intro data aspect
  unfold createPresentation
  rw [if_neg (by simp)]
  constructor
  · simpa using (foldl_dispatch data { usedFallback := true }).2
  · have h := (foldl_dispatch data { usedFallback := true }).1
    simp only [Option.getD_some] at h ⊢
    rw [h]
    simpa using filterMap_known_length data

theorem template_fallback_claim_witness :
    (createPresentation (fun _ => false)
        { slides := some
            [{ layout := some "title_slide", content := { title := some "T" } },
             { layout := some "bogus" }] }
        "4:3").usedFallback = true
    ∧ (createPresentation (fun _ => false)
        { slides := some
            [{ layout := some "title_slide", content := { title := some "T" } },
             { layout := some "bogus" }] }
        "4:3").slides.length
      = ([{ layout := some "title_slide", content := { title := some "T" } },
          ({ layout := some "bogus" } : SlideRecord)].filter
            (fun r => isKnownLayout r.layout)).length :=
  template_fallback_claim _ "4:3"

/-- C7: the style applier leaves the font family at the template default
exactly when the run is bold, forces the family to the role constant
(title or body font name) when the run is not bold, including
underline-only runs, and always forces size and color to the role
constants regardless of bold or underline. -/
theorem style_resolver_claim :
    ∀ (r : Run) (isTitle : Bool),
      (applyFontStyleRun isTitle r).fontSize
          = some (if isTitle then TITLE_FONT_SIZE else BODY_FONT_SIZE)
      ∧ (applyFontStyleRun isTitle r).fontColor
          = some (if isTitle then TITLE_COLOR else BODY_COLOR)
      ∧ (r.bold = some true → (applyFontStyleRun isTitle r).fontName = r.fontName)
      ∧ (r.bold ≠ some true →
          (applyFontStyleRun isTitle r).fontName
            = some (if isTitle then TITLE_FONT_NAME else BODY_FONT_NAME)) := by
  intro r isTitle
  cases isTitle <;> by_cases hb : r.bold = some true <;>
    simp [applyFontStyleRun, hb]

theorem style_resolver_claim_witness :
    (¬ ({ text := "u".data, underline := some true } : Run).bold = some true)
    ∧ (applyFontStyleRun false { text := "u".data, underline := some true }).fontName
        = some BODY_FONT_NAME
    ∧ (applyFontStyleRun false { text := "u".data, underline := some true }).fontSize
        = some BODY_FONT_SIZE := by
  have h := style_resolver_claim { text := "u".data, underline := some true } false
  exact ⟨by decide, by simpa using h.2.2.2 (by decide), by simpa using h.1⟩

/-- The two-column content used to refute the claim that a present heading
is always appended: its left column heading key is present but holds the
empty string. -/
def emptyHeadingContent : ContentDict :=
  { leftColumn := some { heading := some "", points := some ["p"] } }

/-- C8 counterexample: the claim says a present heading is appended first
at indentation level 0 before the points, which would give the left region
two paragraphs here; but a present empty-string heading is falsy in the
dict.get truthiness test, so the code skips it and the region holds only
the single point paragraph at level 1, with no level-0 heading paragraph. -/
theorem two_column_present_heading_counterexample :
    emptyHeadingContent.leftColumn = some { heading := some "", points := some ["p"] }
    ∧ ((addTwoColumnSlide emptyHeadingContent).body.paragraphs.map Paragraph.level) = [1]
    ∧ (addTwoColumnSlide emptyHeadingContent).body.paragraphs.length ≠ 1 + 1 := by
  refine ⟨rfl, by decide, by decide⟩

/-- C8 (amended): in a two_column render each column region (left region
body from left_column, right region body2 from right_column) is populated
in order: if the column's heading is present and non-empty it is appended
first at indentation level 0, then each entry of points in sequence at
indentation level 1; for a column with heading H and points p1, p2 the
region holds exactly three paragraphs in that order with those
indentation levels, shown concretely for both regions. -/
theorem two_column_ordering_claim :
    (∀ (content : ContentDict) (h : String) (ps : List String),
      content.leftColumn = some { heading := some h, points := some ps } →
      ¬h = "" →
      (addTwoColumnSlide content).body.paragraphs
        = { runs := (processMarkdownToRuns h.data).map (applyFontStyleRun false), level := 0 }
          :: ps.map (fun pt =>
              { runs := (processMarkdownToRuns pt.data).map (applyFontStyleRun false),
                level := 1 }))
    ∧ (∀ (content : ContentDict) (h : String) (ps : List String),
      content.rightColumn = some { heading := some h, points := some ps } →
      ¬h = "" →
      (addTwoColumnSlide content).body2.paragraphs
        = { runs := (processMarkdownToRuns h.data).map (applyFontStyleRun false), level := 0 }
          :: ps.map (fun pt =>
              { runs := (processMarkdownToRuns pt.data).map (applyFontStyleRun false),
                level := 1 }))
    ∧ ((addTwoColumnSlide
          { leftColumn := some { heading := some "H", points := some ["p1", "p2"] } }
        ).body.paragraphs.map (fun p => (joinTexts p.runs, p.level)))
      = [("H".data, 0), ("p1".data, 1), ("p2".data, 1)]
    ∧ ((addTwoColumnSlide
          { rightColumn := some { heading := some "H", points := some ["p1", "p2"] } }
        ).body2.paragraphs.map (fun p => (joinTexts p.runs, p.level)))
      = [("H".data, 0), ("p1".data, 1), ("p2".data, 1)] := by
  refine ⟨?_, ?_, ?_, ?_⟩
  · intro content h ps hcol hne
    have htr : truthyStr (some h) = true := by
      simp [truthyStr, hne]
    simp [addTwoColumnSlide, hcol, renderColumn, htr, applyFontStyle, mdParagraph]
  · intro content h ps hcol hne
    have htr : truthyStr (some h) = true := by
      simp [truthyStr, hne]
    simp [addTwoColumnSlide, hcol, renderColumn, htr, applyFontStyle, mdParagraph]
  · decide
  · decide

theorem two_column_ordering_claim_witness :
    (({ leftColumn := some { heading := some "H", points := some ["p1", "p2"] } }
        : ContentDict).leftColumn
      = some { heading := some "H", points := some ["p1", "p2"] })
    ∧ (({ rightColumn := some { heading := some "H", points := some ["p1", "p2"] } }
        : ContentDict).rightColumn
      = some { heading := some "H", points := some ["p1", "p2"] })
    ∧ ¬("H" : String) = ""
    ∧ (addTwoColumnSlide
        { leftColumn := some { heading := some "H", points := some ["p1", "p2"] } }
      ).body.paragraphs
      = { runs := (processMarkdownToRuns "H".data).map (applyFontStyleRun false), level := 0 }
        :: (["p1", "p2"].map (fun pt =>
            { runs := (processMarkdownToRuns pt.data).map (applyFontStyleRun false),
              level := 1 }))
    ∧ (addTwoColumnSlide
        { rightColumn := some { heading := some "H", points := some ["p1", "p2"] } }
      ).body2.paragraphs
      = { runs := (processMarkdownToRuns "H".data).map (applyFontStyleRun false), level := 0 }
        :: (["p1", "p2"].map (fun pt =>
            { runs := (processMarkdownToRuns pt.data).map (applyFontStyleRun false),
              level := 1 })) :=
  ⟨rfl, rfl, by decide,
    two_column_ordering_claim.1 _ "H" ["p1", "p2"] rfl (by decide),
    two_column_ordering_claim.2.1 _ "H" ["p1", "p2"] rfl (by decide)⟩

/-- C9: a bullet_points record with empty content (no title key, no points
key) assembles into a slide whose title text equals the fixed default
"Slide Title" and whose cleared body region holds zero bullet paragraphs. -/
theorem bullet_defaults_claim :
    ((addBulletPointsSlide {}).title.paragraphs.map (fun p => joinTexts p.runs))
      = ["Slide Title".data]
    ∧ (addBulletPointsSlide {}).body.paragraphs = [] := by
  refine ⟨by decide, by decide⟩
